import Mathlib

/-!
Verification development for the crystallographic symmetry repository
(SpaceGroup, CrystalStructure, CrystalLattice).

The numeric field `double` of the source is embedded as `ℚ`: every quantity
the embedded algorithms manipulate is rational, arithmetic is exact, and all
definitions are executable.  Square roots (used by the source only to report
distances and displacement statistics, never to branch) are not representable
in `ℚ`; wherever the source compares or returns a square root of a tracked
quantity we work with the squared quantity instead, which preserves every
comparison because squaring is monotone on nonnegative reals.  Each such spot
is marked in the corresponding doc comment.
-/

/-! ### Basic 3-vector and 3x3-matrix arithmetic

These model the external numeric primitives library (`Vector3D`, `Matrix3D`)
that the spec lists as an out-of-core collaborator: componentwise arithmetic,
matrix-vector and matrix-matrix products, determinant. -/

structure Vector3D where
  x : ℚ
  y : ℚ
  z : ℚ
deriving DecidableEq, Repr

def zero3 : Vector3D := ⟨0, 0, 0⟩

def Vector3D.add (a b : Vector3D) : Vector3D := ⟨a.x + b.x, a.y + b.y, a.z + b.z⟩

def Vector3D.sub (a b : Vector3D) : Vector3D := ⟨a.x - b.x, a.y - b.y, a.z - b.z⟩

def Vector3D.neg (a : Vector3D) : Vector3D := ⟨-a.x, -a.y, -a.z⟩

def Vector3D.norm2 (a : Vector3D) : ℚ := a.x * a.x + a.y * a.y + a.z * a.z

structure Matrix3D where
  xx : ℚ
  xy : ℚ
  xz : ℚ
  yx : ℚ
  yy : ℚ
  yz : ℚ
  zx : ℚ
  zy : ℚ
  zz : ℚ
deriving DecidableEq, Repr

def identity3 : Matrix3D := ⟨1, 0, 0, 0, 1, 0, 0, 0, 1⟩

def Matrix3D.neg (m : Matrix3D) : Matrix3D :=
  ⟨-m.xx, -m.xy, -m.xz, -m.yx, -m.yy, -m.yz, -m.zx, -m.zy, -m.zz⟩

def Matrix3D.add (a b : Matrix3D) : Matrix3D :=
  ⟨a.xx + b.xx, a.xy + b.xy, a.xz + b.xz,
   a.yx + b.yx, a.yy + b.yy, a.yz + b.yz,
   a.zx + b.zx, a.zy + b.zy, a.zz + b.zz⟩

def Matrix3D.mul (a b : Matrix3D) : Matrix3D :=
  ⟨a.xx * b.xx + a.xy * b.yx + a.xz * b.zx,
   a.xx * b.xy + a.xy * b.yy + a.xz * b.zy,
   a.xx * b.xz + a.xy * b.yz + a.xz * b.zz,
   a.yx * b.xx + a.yy * b.yx + a.yz * b.zx,
   a.yx * b.xy + a.yy * b.yy + a.yz * b.zy,
   a.yx * b.xz + a.yy * b.yz + a.yz * b.zz,
   a.zx * b.xx + a.zy * b.yx + a.zz * b.zx,
   a.zx * b.xy + a.zy * b.yy + a.zz * b.zy,
   a.zx * b.xz + a.zy * b.yz + a.zz * b.zz⟩

def Matrix3D.mulVec (m : Matrix3D) (v : Vector3D) : Vector3D :=
  ⟨m.xx * v.x + m.xy * v.y + m.xz * v.z,
   m.yx * v.x + m.yy * v.y + m.yz * v.z,
   m.zx * v.x + m.zy * v.y + m.zz * v.z⟩

def Matrix3D.determinant (m : Matrix3D) : ℚ :=
  m.xx * (m.yy * m.zz - m.yz * m.zy)
    - m.xy * (m.yx * m.zz - m.yz * m.zx)
    + m.xz * (m.yx * m.zy - m.yy * m.zx)

/-! ### Nearest-integer reduction of fractional coordinates -/

/-- Rounding of a rational to the nearest integer, halves away from zero,
matching C++ `round` semantics. -/
def qround (q : ℚ) : ℤ := if 0 ≤ q then ⌊q + 1 / 2⌋ else -⌊-q + 1 / 2⌋

/-- Modelled from the spec: `adjust_for_translations` (3DCalculations, a file
not present under `src/`) reduces the fractional difference vector to its
nearest-integer class — each coordinate is replaced by its offset from the
nearest integer (spec 4.5: "reduce the fractional difference vector to its
nearest-integer class"). -/
def adjust_for_translations (v : Vector3D) : Vector3D :=
  ⟨v.x - qround v.x, v.y - qround v.y, v.z - qround v.z⟩

/-! ### The 26-neighbour descent of `CrystalLattice::shortest_distance2`

The lattice data the algorithm consumes is exactly the
`fractional_to_orthogonal` matrix (the cell basis vectors as columns); the
numeric constructor that produces this matrix from the six cell parameters
uses trigonometric functions and is kept outside the embedding — a lattice is
represented here directly by its matrix. -/

/-- Squared Cartesian length of a fractional vector under lattice matrix `M`:
`fractional_to_orthogonal( d ).norm2()` of the source. -/
def dist2 (M : Matrix3D) (d : Vector3D) : ℚ := (M.mulVec d).norm2

/-- Integer translation of a fractional vector. -/
def addZ (d : Vector3D) (t : ℤ × ℤ × ℤ) : Vector3D :=
  ⟨d.x + (t.1 : ℚ), d.y + (t.2.1 : ℚ), d.z + (t.2.2 : ℚ)⟩

/-- The 27 offsets scanned by the triple loop of
`CrystalLattice::shortest_distance2`, in the source's iteration order
(`i` outer, then `j`, then `k`, each running -1, 0, 1; the (0,0,0) entry is
scanned by the source too and can never strictly improve). -/
def offsets : List (ℤ × ℤ × ℤ) :=
  [(-1, -1, -1), (-1, -1, 0), (-1, -1, 1),
   (-1, 0, -1), (-1, 0, 0), (-1, 0, 1),
   (-1, 1, -1), (-1, 1, 0), (-1, 1, 1),
   (0, -1, -1), (0, -1, 0), (0, -1, 1),
   (0, 0, -1), (0, 0, 0), (0, 0, 1),
   (0, 1, -1), (0, 1, 0), (0, 1, 1),
   (1, -1, -1), (1, -1, 0), (1, -1, 1),
   (1, 0, -1), (1, 0, 0), (1, 0, 1),
   (1, 1, -1), (1, 1, 0), (1, 1, 1)]

/-- One comparison step of the inner triple loop: try a single offset against
the current candidate difference vector, adopting it exactly when it strictly
decreases the squared distance (the source updates `difference_vector` and
`shortest_distance2` in place, so later offsets of the same pass are measured
against the updated candidate — this fold reproduces that). -/
def stepOffset (M : Matrix3D) (d : Vector3D) (t : ℤ × ℤ × ℤ) : Vector3D :=
  if dist2 M (addZ d t) < dist2 M d then addZ d t else d

/-- One full pass of the triple loop over all 27 offsets. -/
def onePass (M : Matrix3D) (d : Vector3D) : Vector3D :=
  offsets.foldl (stepOffset M) d

/-! Termination of the do-while loop.  Every candidate the loop visits lies in
the integer-translation class of the starting vector, so all squared distances
it compares are rationals with one fixed common denominator; each accepted
move strictly decreases the squared distance, hence decreases the integer
numerator over that common denominator, which is the well-founded measure. -/

def vecDen (v : Vector3D) : ℕ := v.x.den * v.y.den * v.z.den

def matDen (M : Matrix3D) : ℕ :=
  M.xx.den * M.xy.den * M.xz.den * M.yx.den * M.yy.den * M.yz.den *
    M.zx.den * M.zy.den * M.zz.den

/-- Common denominator square that clears `dist2 M d`. -/
def clearDen (M : Matrix3D) (d : Vector3D) : ℚ :=
  ((matDen M : ℚ) * (vecDen d : ℚ)) ^ 2

def descendMeasure (M : Matrix3D) (d : Vector3D) : ℕ :=
  (clearDen M d * dist2 M d).num.toNat

/-- A rational is integral when it is the cast of an integer. -/
def IsInt (q : ℚ) : Prop := ∃ z : ℤ, q = (z : ℚ)

theorem isInt_add {a b : ℚ} (ha : IsInt a) (hb : IsInt b) : IsInt (a + b) := by
  obtain ⟨za, rfl⟩ := ha
  obtain ⟨zb, rfl⟩ := hb
  exact ⟨za + zb, by push_cast; ring⟩

theorem isInt_mul {a b : ℚ} (ha : IsInt a) (hb : IsInt b) : IsInt (a * b) := by
  obtain ⟨za, rfl⟩ := ha
  obtain ⟨zb, rfl⟩ := hb
  exact ⟨za * zb, by push_cast; ring⟩

theorem den_mul_self_int (q : ℚ) : (q.den : ℚ) * q = (q.num : ℚ) := by
  have hden : (q.den : ℚ) ≠ 0 := by
    exact_mod_cast q.den_nz
  have h := Rat.num_div_den q
  calc (q.den : ℚ) * q = (q.den : ℚ) * ((q.num : ℚ) / (q.den : ℚ)) := by rw [h]
    _ = (q.num : ℚ) := by field_simp

theorem isInt_den_dvd_mul (q : ℚ) (k : ℕ) (h : q.den ∣ k) : IsInt ((k : ℚ) * q) := by
  obtain ⟨m, rfl⟩ := h
  refine ⟨(m : ℤ) * q.num, ?_⟩
  push_cast
  rw [show (q.den : ℚ) * (m : ℚ) * q = (m : ℚ) * ((q.den : ℚ) * q) by ring, den_mul_self_int]

theorem den_dvd_vecDen_x (v : Vector3D) : v.x.den ∣ vecDen v :=
  ⟨v.y.den * v.z.den, by unfold vecDen; ring⟩

theorem den_dvd_vecDen_y (v : Vector3D) : v.y.den ∣ vecDen v :=
  ⟨v.x.den * v.z.den, by unfold vecDen; ring⟩

theorem den_dvd_vecDen_z (v : Vector3D) : v.z.den ∣ vecDen v :=
  ⟨v.x.den * v.y.den, by unfold vecDen; ring⟩

theorem isInt_row (mx my mz : ℚ) (M : Matrix3D) (v : Vector3D)
    (hx : mx.den ∣ matDen M) (hy : my.den ∣ matDen M) (hz : mz.den ∣ matDen M) :
    IsInt ((matDen M : ℚ) * (vecDen v : ℚ) * (mx * v.x + my * v.y + mz * v.z)) := by
  have h1 : IsInt ((matDen M : ℚ) * mx) := isInt_den_dvd_mul _ _ hx
  have h2 : IsInt ((matDen M : ℚ) * my) := isInt_den_dvd_mul _ _ hy
  have h3 : IsInt ((matDen M : ℚ) * mz) := isInt_den_dvd_mul _ _ hz
  have hvx : IsInt ((vecDen v : ℚ) * v.x) := isInt_den_dvd_mul _ _ (den_dvd_vecDen_x v)
  have hvy : IsInt ((vecDen v : ℚ) * v.y) := isInt_den_dvd_mul _ _ (den_dvd_vecDen_y v)
  have hvz : IsInt ((vecDen v : ℚ) * v.z) := isInt_den_dvd_mul _ _ (den_dvd_vecDen_z v)
  have :
      (matDen M : ℚ) * (vecDen v : ℚ) * (mx * v.x + my * v.y + mz * v.z) =
        ((matDen M : ℚ) * mx) * ((vecDen v : ℚ) * v.x) +
          ((matDen M : ℚ) * my) * ((vecDen v : ℚ) * v.y) +
          ((matDen M : ℚ) * mz) * ((vecDen v : ℚ) * v.z) := by ring
  rw [this]
  exact isInt_add (isInt_add (isInt_mul h1 hvx) (isInt_mul h2 hvy)) (isInt_mul h3 hvz)

theorem matDen_dvd_entries (M : Matrix3D) :
    M.xx.den ∣ matDen M ∧ M.xy.den ∣ matDen M ∧ M.xz.den ∣ matDen M ∧
    M.yx.den ∣ matDen M ∧ M.yy.den ∣ matDen M ∧ M.yz.den ∣ matDen M ∧
    M.zx.den ∣ matDen M ∧ M.zy.den ∣ matDen M ∧ M.zz.den ∣ matDen M := by
  unfold matDen
  exact
    ⟨⟨M.xy.den * M.xz.den * M.yx.den * M.yy.den * M.yz.den * M.zx.den * M.zy.den * M.zz.den,
        by ring⟩,
      ⟨M.xx.den * M.xz.den * M.yx.den * M.yy.den * M.yz.den * M.zx.den * M.zy.den * M.zz.den,
        by ring⟩,
      ⟨M.xx.den * M.xy.den * M.yx.den * M.yy.den * M.yz.den * M.zx.den * M.zy.den * M.zz.den,
        by ring⟩,
      ⟨M.xx.den * M.xy.den * M.xz.den * M.yy.den * M.yz.den * M.zx.den * M.zy.den * M.zz.den,
        by ring⟩,
      ⟨M.xx.den * M.xy.den * M.xz.den * M.yx.den * M.yz.den * M.zx.den * M.zy.den * M.zz.den,
        by ring⟩,
      ⟨M.xx.den * M.xy.den * M.xz.den * M.yx.den * M.yy.den * M.zx.den * M.zy.den * M.zz.den,
        by ring⟩,
      ⟨M.xx.den * M.xy.den * M.xz.den * M.yx.den * M.yy.den * M.yz.den * M.zy.den * M.zz.den,
        by ring⟩,
      ⟨M.xx.den * M.xy.den * M.xz.den * M.yx.den * M.yy.den * M.yz.den * M.zx.den * M.zz.den,
        by ring⟩,
      ⟨M.xx.den * M.xy.den * M.xz.den * M.yx.den * M.yy.den * M.yz.den * M.zx.den * M.zy.den,
        by ring⟩⟩

theorem isInt_clearDen_dist2 (M : Matrix3D) (d : Vector3D) :
    IsInt (clearDen M d * dist2 M d) := by
  obtain ⟨h1, h2, h3, h4, h5, h6, h7, h8, h9⟩ := matDen_dvd_entries M
  have hx := isInt_row M.xx M.xy M.xz M d h1 h2 h3
  have hy := isInt_row M.yx M.yy M.yz M d h4 h5 h6
  have hz := isInt_row M.zx M.zy M.zz M d h7 h8 h9
  have hexp :
      clearDen M d * dist2 M d =
        ((matDen M : ℚ) * (vecDen d : ℚ) * (M.xx * d.x + M.xy * d.y + M.xz * d.z)) ^ 2 +
          ((matDen M : ℚ) * (vecDen d : ℚ) * (M.yx * d.x + M.yy * d.y + M.yz * d.z)) ^ 2 +
          ((matDen M : ℚ) * (vecDen d : ℚ) * (M.zx * d.x + M.zy * d.y + M.zz * d.z)) ^ 2 := by
    unfold clearDen dist2 Matrix3D.mulVec Vector3D.norm2
    ring
  rw [hexp]
  have sq : ∀ {q : ℚ}, IsInt q → IsInt (q ^ 2) := by
    intro q hq
    rw [sq]
    exact isInt_mul hq hq
  exact isInt_add (isInt_add (sq hx) (sq hy)) (sq hz)

theorem den_add_intCast (q : ℚ) (n : ℤ) : (q + (n : ℚ)).den = q.den := by
  have h1 : (q + (n : ℚ)).den ∣ q.den := by
    have := Rat.add_den_dvd q (n : ℚ)
    simpa using this
  have h2 : q.den ∣ (q + (n : ℚ)).den := by
    have := Rat.add_den_dvd (q + (n : ℚ)) (-n : ℚ)
    simpa [add_assoc] using this
  exact Nat.dvd_antisymm h1 h2

theorem vecDen_addZ (d : Vector3D) (t : ℤ × ℤ × ℤ) : vecDen (addZ d t) = vecDen d := by
  unfold vecDen addZ
  simp [den_add_intCast]

theorem vecDen_stepOffset (M : Matrix3D) (d : Vector3D) (t : ℤ × ℤ × ℤ) :
    vecDen (stepOffset M d t) = vecDen d := by
  unfold stepOffset
  split
  · exact vecDen_addZ d t
  · rfl

theorem dist2_stepOffset_le (M : Matrix3D) (d : Vector3D) (t : ℤ × ℤ × ℤ) :
    dist2 M (stepOffset M d t) ≤ dist2 M d := by
  unfold stepOffset
  split
  · exact le_of_lt (by assumption)
  · exact le_refl _

theorem stepOffset_ne_lt (M : Matrix3D) (d : Vector3D) (t : ℤ × ℤ × ℤ)
    (h : stepOffset M d t ≠ d) : dist2 M (stepOffset M d t) < dist2 M d := by
  unfold stepOffset at *
  by_cases hc : dist2 M (addZ d t) < dist2 M d
  · simpa [hc] using hc
  · simp [hc] at h

theorem foldl_vecDen (M : Matrix3D) (l : List (ℤ × ℤ × ℤ)) (d : Vector3D) :
    vecDen (l.foldl (stepOffset M) d) = vecDen d := by
  induction l generalizing d with
  | nil => rfl
  | cons t rest ih => rw [List.foldl_cons, ih, vecDen_stepOffset]

theorem foldl_dist2_le (M : Matrix3D) (l : List (ℤ × ℤ × ℤ)) (d : Vector3D) :
    dist2 M (l.foldl (stepOffset M) d) ≤ dist2 M d := by
  induction l generalizing d with
  | nil => exact le_refl _
  | cons t rest ih =>
      rw [List.foldl_cons]
      exact le_trans (ih _) (dist2_stepOffset_le M d t)

theorem foldl_dist2_lt_of_ne (M : Matrix3D) (l : List (ℤ × ℤ × ℤ)) (d : Vector3D)
    (h : l.foldl (stepOffset M) d ≠ d) :
    dist2 M (l.foldl (stepOffset M) d) < dist2 M d := by
  induction l generalizing d with
  | nil => exact absurd rfl h
  | cons t rest ih =>
      rw [List.foldl_cons] at h ⊢
      by_cases hs : stepOffset M d t = d
      · rw [hs] at h ⊢
        exact ih d h
      · calc dist2 M (rest.foldl (stepOffset M) (stepOffset M d t))
            ≤ dist2 M (stepOffset M d t) := foldl_dist2_le M rest _
          _ < dist2 M d := stepOffset_ne_lt M d t hs

theorem onePass_vecDen (M : Matrix3D) (d : Vector3D) : vecDen (onePass M d) = vecDen d :=
  foldl_vecDen M offsets d

theorem onePass_dist2_le (M : Matrix3D) (d : Vector3D) :
    dist2 M (onePass M d) ≤ dist2 M d :=
  foldl_dist2_le M offsets d

theorem onePass_dist2_lt (M : Matrix3D) (d : Vector3D) (h : onePass M d ≠ d) :
    dist2 M (onePass M d) < dist2 M d :=
  foldl_dist2_lt_of_ne M offsets d h

theorem dist2_nonneg (M : Matrix3D) (d : Vector3D) : 0 ≤ dist2 M d := by
  unfold dist2 Vector3D.norm2
  nlinarith [mul_self_nonneg (M.mulVec d).x, mul_self_nonneg (M.mulVec d).y,
    mul_self_nonneg (M.mulVec d).z]

theorem descendMeasure_lt (M : Matrix3D) (d : Vector3D) (h : onePass M d ≠ d) :
    descendMeasure M (onePass M d) < descendMeasure M d := by
  have hden : clearDen M (onePass M d) = clearDen M d := by
    unfold clearDen
    rw [onePass_vecDen]
  have hpos : 0 < clearDen M d := by
    have h1 : 0 < matDen M := by
      unfold matDen
      repeat' apply Nat.mul_pos
      all_goals exact Rat.pos _
    have h2 : 0 < vecDen d := by
      unfold vecDen
      repeat' apply Nat.mul_pos
      all_goals exact Rat.pos _
    have hq : (0 : ℚ) < (matDen M : ℚ) * (vecDen d : ℚ) := by
      have c1 : (0 : ℚ) < (matDen M : ℚ) := by exact_mod_cast h1
      have c2 : (0 : ℚ) < (vecDen d : ℚ) := by exact_mod_cast h2
      exact mul_pos c1 c2
    unfold clearDen
    exact pow_pos hq 2
  obtain ⟨za, ha⟩ := isInt_clearDen_dist2 M (onePass M d)
  obtain ⟨zb, hb⟩ := isInt_clearDen_dist2 M d
  have hlt : clearDen M d * dist2 M (onePass M d) < clearDen M d * dist2 M d :=
    mul_lt_mul_of_pos_left (onePass_dist2_lt M d h) hpos
  rw [hden] at ha
  have hzlt : za < zb := by
    have := ha ▸ hb ▸ hlt
    exact_mod_cast this
  have haz : 0 ≤ za := by
    have : (0 : ℚ) ≤ (za : ℚ) := by
      rw [← ha]
      exact mul_nonneg (le_of_lt hpos) (dist2_nonneg M _)
    exact_mod_cast this
  unfold descendMeasure
  rw [hden, ha, hb]
  simp only [Rat.num_intCast]
  omega

/-- The do-while loop of `CrystalLattice::shortest_distance2`: rescan the 27
offsets from the current candidate, repeating as long as some offset improved
(`shortest_distance_changed`), which happens exactly when a pass moved the
candidate.  Terminates because each changing pass strictly decreases the
squared distance, which ranges over a discrete set of rationals bounded below
by zero (all candidates stay in one integer-translation class). -/
def descend (M : Matrix3D) (d : Vector3D) : Vector3D :=
  if h : onePass M d = d then d else descend M (onePass M d)
termination_by descendMeasure M d
decreasing_by exact descendMeasure_lt M d h

theorem descend_fixed {M : Matrix3D} {d : Vector3D} (h : onePass M d = d) :
    descend M d = d := by
  rw [descend]
  simp [h]

theorem descend_step {M : Matrix3D} {d : Vector3D} (h : onePass M d ≠ d) :
    descend M d = descend M (onePass M d) := by
  conv_lhs => rw [descend]
  simp [h]

/-- `CrystalLattice::shortest_distance2`: reduce the fractional difference
`rhs - lhs` to its nearest-integer class, then run the iterated 26-neighbour
descent and return the squared Cartesian length of the resulting difference
vector. -/
def shortest_distance2 (M : Matrix3D) (lhs rhs : Vector3D) : ℚ :=
  dist2 M (descend M (adjust_for_translations (rhs.sub lhs)))

/-- The variant `CrystalLattice::shortest_distance(lhs, rhs, dist, diff)`,
which also reports the final difference vector (fractional coordinates).  The
source outputs `sqrt` of the squared distance; the first component here is the
squared distance itself (square roots are irrational; every caller in the
embedded code uses the value only in order comparisons, which the square
preserves). -/
def shortest_distance_vec (M : Matrix3D) (lhs rhs : Vector3D) : ℚ × Vector3D :=
  (dist2 M (descend M (adjust_for_translations (rhs.sub lhs))),
    descend M (adjust_for_translations (rhs.sub lhs)))

/-! ### Properties of the nearest-integer reduction -/

theorem qround_neg (q : ℚ) : qround (-q) = -qround q := by
  unfold qround
  rcases lt_trichotomy q 0 with h | h | h
  · rw [if_pos (show (0 : ℚ) ≤ -q by linarith), if_neg (show ¬ (0 : ℚ) ≤ q by linarith),
      neg_neg]
  · subst h
    norm_num
  · rw [if_neg (show ¬ (0 : ℚ) ≤ -q by linarith), if_pos (show (0 : ℚ) ≤ q by linarith),
      neg_neg]

theorem abs_sub_qround_le (q : ℚ) : |q - (qround q : ℚ)| ≤ 1 / 2 := by
  unfold qround
  split
  · have h1 : (⌊q + 1 / 2⌋ : ℚ) ≤ q + 1 / 2 := Int.floor_le _
    have h2 : q + 1 / 2 < (⌊q + 1 / 2⌋ : ℚ) + 1 := Int.lt_floor_add_one _
    rw [abs_le]
    constructor <;> push_cast <;> linarith
  · have h1 : (⌊-q + 1 / 2⌋ : ℚ) ≤ -q + 1 / 2 := Int.floor_le _
    have h2 : -q + 1 / 2 < (⌊-q + 1 / 2⌋ : ℚ) + 1 := Int.lt_floor_add_one _
    rw [abs_le]
    constructor <;> push_cast <;> linarith

theorem adjust_neg (v : Vector3D) :
    adjust_for_translations v.neg = (adjust_for_translations v).neg := by
  unfold adjust_for_translations Vector3D.neg
  simp only [qround_neg, Vector3D.mk.injEq]
  push_cast
  refine ⟨by ring, by ring, by ring⟩

theorem sub_antisymm (a b : Vector3D) : b.sub a = (a.sub b).neg := by
  unfold Vector3D.sub Vector3D.neg
  simp only [Vector3D.mk.injEq]
  refine ⟨by ring, by ring, by ring⟩

theorem dist2_neg (M : Matrix3D) (v : Vector3D) : dist2 M v.neg = dist2 M v := by
  unfold dist2 Matrix3D.mulVec Vector3D.norm2 Vector3D.neg
  ring

/-! ### Fixed points of the descent on orthogonal (diagonal) lattices -/

/-- An orthogonal cell: the fractional-to-orthogonal matrix is diagonal. -/
def isDiagonal (M : Matrix3D) : Prop :=
  M.xy = 0 ∧ M.xz = 0 ∧ M.yx = 0 ∧ M.yz = 0 ∧ M.zx = 0 ∧ M.zy = 0

theorem sq_le_add_int (r : ℚ) (i : ℤ) (hr : |r| ≤ 1 / 2) (h1 : -1 ≤ i) (h2 : i ≤ 1) :
    r * r ≤ (r + (i : ℚ)) * (r + (i : ℚ)) := by
  obtain ⟨hl, hu⟩ := abs_le.mp hr
  interval_cases i <;> push_cast <;> nlinarith

theorem offsets_bounds :
    ∀ t ∈ offsets, -1 ≤ t.1 ∧ t.1 ≤ 1 ∧ -1 ≤ t.2.1 ∧ t.2.1 ≤ 1 ∧ -1 ≤ t.2.2 ∧ t.2.2 ≤ 1 := by
  decide

theorem diag_no_improve (M : Matrix3D) (hM : isDiagonal M) (d : Vector3D)
    (hx : |d.x| ≤ 1 / 2) (hy : |d.y| ≤ 1 / 2) (hz : |d.z| ≤ 1 / 2)
    (t : ℤ × ℤ × ℤ)
    (hb : -1 ≤ t.1 ∧ t.1 ≤ 1 ∧ -1 ≤ t.2.1 ∧ t.2.1 ≤ 1 ∧ -1 ≤ t.2.2 ∧ t.2.2 ≤ 1) :
    ¬ dist2 M (addZ d t) < dist2 M d := by
  obtain ⟨hxy, hxz, hyx, hyz, hzx, hzy⟩ := hM
  obtain ⟨b1, b2, b3, b4, b5, b6⟩ := hb
  have e1 := sq_le_add_int d.x t.1 hx b1 b2
  have e2 := sq_le_add_int d.y t.2.1 hy b3 b4
  have e3 := sq_le_add_int d.z t.2.2 hz b5 b6
  unfold dist2 addZ Matrix3D.mulVec Vector3D.norm2
  rw [hxy, hxz, hyx, hyz, hzx, hzy]
  push_cast
  nlinarith [sq_nonneg M.xx, sq_nonneg M.yy, sq_nonneg M.zz,
    mul_le_mul_of_nonneg_left e1 (sq_nonneg M.xx),
    mul_le_mul_of_nonneg_left e2 (sq_nonneg M.yy),
    mul_le_mul_of_nonneg_left e3 (sq_nonneg M.zz)]

theorem foldl_no_improve (M : Matrix3D) (d : Vector3D) (l : List (ℤ × ℤ × ℤ))
    (h : ∀ t ∈ l, ¬ dist2 M (addZ d t) < dist2 M d) :
    l.foldl (stepOffset M) d = d := by
  induction l with
  | nil => rfl
  | cons t rest ih =>
      rw [List.foldl_cons]
      have hs : stepOffset M d t = d := by
        unfold stepOffset
        rw [if_neg (h t (List.mem_cons_self t rest))]
      rw [hs]
      exact ih fun t' ht' => h t' (List.mem_cons_of_mem t ht')

theorem onePass_diag_fixed (M : Matrix3D) (hM : isDiagonal M) (d : Vector3D)
    (hx : |d.x| ≤ 1 / 2) (hy : |d.y| ≤ 1 / 2) (hz : |d.z| ≤ 1 / 2) :
    onePass M d = d :=
  foldl_no_improve M d offsets fun t ht =>
    diag_no_improve M hM d hx hy hz t (offsets_bounds t ht)

theorem adjust_bounds (v : Vector3D) :
    |(adjust_for_translations v).x| ≤ 1 / 2 ∧ |(adjust_for_translations v).y| ≤ 1 / 2 ∧
      |(adjust_for_translations v).z| ≤ 1 / 2 :=
  ⟨abs_sub_qround_le v.x, abs_sub_qround_le v.y, abs_sub_qround_le v.z⟩

theorem shortest_distance2_diag (M : Matrix3D) (hM : isDiagonal M) (P Q : Vector3D) :
    shortest_distance2 M P Q = dist2 M (adjust_for_translations (Q.sub P)) := by
  unfold shortest_distance2
  obtain ⟨hx, hy, hz⟩ := adjust_bounds (Q.sub P)
  rw [descend_fixed (onePass_diag_fixed M hM _ hx hy hz)]

theorem neg_bounds (v : Vector3D) (hx : |v.x| ≤ 1 / 2) (hy : |v.y| ≤ 1 / 2)
    (hz : |v.z| ≤ 1 / 2) : |v.neg.x| ≤ 1 / 2 ∧ |v.neg.y| ≤ 1 / 2 ∧ |v.neg.z| ≤ 1 / 2 := by
  unfold Vector3D.neg
  refine ⟨?_, ?_, ?_⟩
  · show |(-v.x)| ≤ 1 / 2
    rw [abs_neg]; exact hx
  · show |(-v.y)| ≤ 1 / 2
    rw [abs_neg]; exact hy
  · show |(-v.z)| ≤ 1 / 2
    rw [abs_neg]; exact hz

/-! ### Concrete skewed lattice on which the descent stalls

The cell has basis vectors a = (1,0,0), b = (5/2, 1/10, 0), c = (0,0,1): the
columns of `Mcex`.  This is a legitimate (very oblique) unit cell: b is nearly
parallel to a, so the shortest lattice vector in the a,b-plane is b - 2a,
which is outside the 26-neighbour offset set. -/

def Mcex : Matrix3D := ⟨1, 5/2, 0, 0, 1/10, 0, 0, 0, 1⟩

def Pcex : Vector3D := ⟨0, 0, 0⟩

def Qcex : Vector3D := ⟨1/20, 49/100, 0⟩

theorem adjust_fwd : adjust_for_translations (Qcex.sub Pcex) = ⟨1/20, 49/100, 0⟩ := by
  norm_num [adjust_for_translations, qround, Vector3D.sub, Qcex, Pcex]

theorem adjust_bwd : adjust_for_translations (Pcex.sub Qcex) = ⟨-1/20, -49/100, 0⟩ := by
  norm_num [adjust_for_translations, qround, Vector3D.sub, Qcex, Pcex]

theorem onePass_fwd1 : onePass Mcex ⟨1/20, 49/100, 0⟩ = ⟨-19/20, 49/100, 0⟩ := by
  norm_num [onePass, offsets, stepOffset, addZ, dist2, Matrix3D.mulVec, Vector3D.norm2, Mcex,
    List.foldl_cons, List.foldl_nil]

theorem onePass_fwd2 : onePass Mcex ⟨-19/20, 49/100, 0⟩ = ⟨-19/20, 49/100, 0⟩ := by
  norm_num [onePass, offsets, stepOffset, addZ, dist2, Matrix3D.mulVec, Vector3D.norm2, Mcex,
    List.foldl_cons, List.foldl_nil]

theorem onePass_bwd1 : onePass Mcex ⟨-1/20, -49/100, 0⟩ = ⟨-21/20, 51/100, 0⟩ := by
  norm_num [onePass, offsets, stepOffset, addZ, dist2, Matrix3D.mulVec, Vector3D.norm2, Mcex,
    List.foldl_cons, List.foldl_nil]

theorem onePass_bwd2 : onePass Mcex ⟨-21/20, 51/100, 0⟩ = ⟨-21/20, 51/100, 0⟩ := by
  norm_num [onePass, offsets, stepOffset, addZ, dist2, Matrix3D.mulVec, Vector3D.norm2, Mcex,
    List.foldl_cons, List.foldl_nil]

theorem descend_fwd : descend Mcex ⟨1/20, 49/100, 0⟩ = ⟨-19/20, 49/100, 0⟩ := by
  rw [descend_step (by rw [onePass_fwd1]; norm_num [Vector3D.mk.injEq]), onePass_fwd1,
    descend_fixed onePass_fwd2]

theorem descend_bwd : descend Mcex ⟨-1/20, -49/100, 0⟩ = ⟨-21/20, 51/100, 0⟩ := by
  rw [descend_step (by rw [onePass_bwd1]; norm_num [Vector3D.mk.injEq]), onePass_bwd1,
    descend_fixed onePass_bwd2]

theorem sd2_fwd_eval : shortest_distance2 Mcex Pcex Qcex = 39013 / 500000 := by
  unfold shortest_distance2
  rw [adjust_fwd, descend_fwd]
  norm_num [dist2, Matrix3D.mulVec, Vector3D.norm2, Mcex]

theorem sd2_bwd_eval : shortest_distance2 Mcex Qcex Pcex = 26613 / 500000 := by
  unfold shortest_distance2
  rw [adjust_bwd, descend_bwd]
  norm_num [dist2, Matrix3D.mulVec, Vector3D.norm2, Mcex]

/-! ### Termination of the descent: the iterates of `onePass` stabilize -/

theorem descend_iterates (M : Matrix3D) :
    ∀ (k : ℕ) (d : Vector3D), descendMeasure M d ≤ k →
      ∃ n : ℕ, onePass M ((onePass M)^[n] d) = (onePass M)^[n] d ∧
        descend M d = (onePass M)^[n] d := by
  intro k
  induction k with
  | zero =>
      intro d hd
      by_cases h : onePass M d = d
      · exact ⟨0, by simpa using h, by rw [descend_fixed h]; simp⟩
      · exact absurd (descendMeasure_lt M d h) (by omega)
  | succ k ih =>
      intro d hd
      by_cases h : onePass M d = d
      · exact ⟨0, by simpa using h, by rw [descend_fixed h]; simp⟩
      · obtain ⟨n, h1, h2⟩ := ih (onePass M d) (by have := descendMeasure_lt M d h; omega)
        refine ⟨n + 1, ?_, ?_⟩
        · rw [Function.iterate_succ_apply]
          exact h1
        · rw [descend_step h, Function.iterate_succ_apply]
          exact h2

/-- C4: for every crystal lattice and every pair of fractional positions, the
iterative neighbour-scan loop in `shortest_distance2` terminates: the do-while
loop that rescans the offsets in {-1,0,1}³ reaches a fixed point after
finitely many passes (each accepted move strictly decreases the squared
distance, and the squared distances of the visited integer-translation class
form a discrete set bounded below), and the returned value is the squared
distance at that fixed point. -/
theorem C4_loop_terminates (M : Matrix3D) (lhs rhs : Vector3D) :
    ∃ n : ℕ,
      onePass M ((onePass M)^[n] (adjust_for_translations (rhs.sub lhs))) =
        (onePass M)^[n] (adjust_for_translations (rhs.sub lhs)) ∧
      shortest_distance2 M lhs rhs =
        dist2 M ((onePass M)^[n] (adjust_for_translations (rhs.sub lhs))) := by
  obtain ⟨n, h1, h2⟩ :=
    descend_iterates M (descendMeasure M (adjust_for_translations (rhs.sub lhs)))
      (adjust_for_translations (rhs.sub lhs)) (le_refl _)
  exact ⟨n, h1, by unfold shortest_distance2; rw [h2]⟩

/-- C2: the spec asserts `shortest_distance2` returns the true global minimum
over all integer translates for every lattice; on the oblique lattice `Mcex`
with fractional positions `Pcex`, `Qcex` the iterated 26-neighbour descent
stalls at squared distance 39013/500000, while the integer translate
(1, -1, 0) of the reduced difference vector — reachable only by the move
(2, -1, 0) from the stall point, which is outside the offset set — has the
strictly smaller squared distance 26613/500000.  The code therefore does not
deliver the global minimum its own documentation ("Finds shortest distance
... between two positions") and the spec promise. -/
theorem C2_descent_misses_global_minimum :
    shortest_distance2 Mcex Pcex Qcex = 39013 / 500000 ∧
    dist2 Mcex (addZ (adjust_for_translations (Qcex.sub Pcex)) (1, -1, 0)) = 26613 / 500000 ∧
    dist2 Mcex (addZ (adjust_for_translations (Qcex.sub Pcex)) (1, -1, 0)) <
      shortest_distance2 Mcex Pcex Qcex := by
  have h2 : dist2 Mcex (addZ (adjust_for_translations (Qcex.sub Pcex)) (1, -1, 0)) =
      26613 / 500000 := by
    rw [adjust_fwd]
    norm_num [dist2, addZ, Matrix3D.mulVec, Vector3D.norm2, Mcex]
  refine ⟨sd2_fwd_eval, h2, ?_⟩
  rw [sd2_fwd_eval, h2]
  norm_num

/-- C3 counterexample: on the oblique lattice `Mcex` the distance is not
symmetric — the descent started from the reduced difference of (P,Q) and the
one started from its negation (the reduced difference of (Q,P)) stall at
inequivalent local minima, so `shortest_distance2 P Q ≠ shortest_distance2 Q P`. -/
theorem C3_symmetry_counterexample :
    shortest_distance2 Mcex Pcex Qcex = 39013 / 500000 ∧
    shortest_distance2 Mcex Qcex Pcex = 26613 / 500000 ∧
    shortest_distance2 Mcex Pcex Qcex ≠ shortest_distance2 Mcex Qcex Pcex := by
  refine ⟨sd2_fwd_eval, sd2_bwd_eval, ?_⟩
  rw [sd2_fwd_eval, sd2_bwd_eval]
  norm_num

theorem sub_addZ_cancel (P Q : Vector3D) (n : ℤ × ℤ × ℤ) :
    (addZ Q n).sub (addZ P n) = Q.sub P := by
  unfold addZ Vector3D.sub
  simp only [Vector3D.mk.injEq]
  refine ⟨by ring, by ring, by ring⟩

/-- C3 amended: translation invariance holds unconditionally — shifting both
fractional positions by the same integer lattice vector leaves
`shortest_distance2` unchanged; and the symmetry
`shortest_distance2 P Q = shortest_distance2 Q P` holds for orthogonal cells
(diagonal fractional-to-orthogonal matrix), where the reduced difference
vector is already a fixed point of the descent.  (Symmetry can fail for
oblique lattices, see the counterexample.) -/
theorem C3_invariances_amended (M : Matrix3D) (P Q : Vector3D) (n : ℤ × ℤ × ℤ) :
    shortest_distance2 M (addZ P n) (addZ Q n) = shortest_distance2 M P Q ∧
    (isDiagonal M → shortest_distance2 M P Q = shortest_distance2 M Q P) := by
  constructor
  · unfold shortest_distance2
    rw [sub_addZ_cancel]
  · intro hM
    rw [shortest_distance2_diag M hM P Q, shortest_distance2_diag M hM Q P,
      sub_antisymm Q P, adjust_neg, dist2_neg]

/-- Witness for C3 amended at a concrete orthogonal lattice (the identity
matrix, a cubic cell), concrete positions and a concrete integer shift. -/
theorem C3_invariances_witness :
    shortest_distance2 identity3 (addZ ⟨1/4, 1/3, 0⟩ (2, 0, -1)) (addZ zero3 (2, 0, -1)) =
      shortest_distance2 identity3 ⟨1/4, 1/3, 0⟩ zero3 ∧
    shortest_distance2 identity3 ⟨1/4, 1/3, 0⟩ zero3 =
      shortest_distance2 identity3 zero3 ⟨1/4, 1/3, 0⟩ :=
  ⟨(C3_invariances_amended identity3 ⟨1/4, 1/3, 0⟩ zero3 (2, 0, -1)).1,
   (C3_invariances_amended identity3 ⟨1/4, 1/3, 0⟩ zero3 (2, 0, -1)).2
     ⟨rfl, rfl, rfl, rfl, rfl, rfl⟩⟩

/-! ### Symmetry operators and tolerance-based equality -/

/-- Modelled from the spec: the tolerance-comparison utility `nearly_equal`
(Utilities, a file not present under `src/`) compares floating-point values
with one fixed process-wide epsilon (spec 6, 9). -/
def tolQ : ℚ := 1 / 100000

def nearly_equal (a b : ℚ) : Bool := if |a - b| < tolQ then true else false

def nearly_equalV (a b : Vector3D) : Bool :=
  nearly_equal a.x b.x && nearly_equal a.y b.y && nearly_equal a.z b.z

def nearly_equalM (a b : Matrix3D) : Bool :=
  nearly_equal a.xx b.xx && nearly_equal a.xy b.xy && nearly_equal a.xz b.xz &&
  nearly_equal a.yx b.yx && nearly_equal a.yy b.yy && nearly_equal a.yz b.yz &&
  nearly_equal a.zx b.zx && nearly_equal a.zy b.zy && nearly_equal a.zz b.zz

structure SymmetryOperator where
  rotation : Matrix3D
  translation : Vector3D
deriving DecidableEq, Repr

/-- The default `SymmetryOperator()`: identity rotation, zero translation
(modelled from the spec, 3: "an identity operator (identity rotation, zero
translation)"; `SymmetryOperator.cpp` is not under `src/`). -/
def identityOp : SymmetryOperator := ⟨identity3, zero3⟩

/-- Modelled from the spec (4.1): composition `a * b` yields rotation
`a.rotation × b.rotation` and translation
`a.rotation × b.translation + a.translation`. -/
def symMul (a b : SymmetryOperator) : SymmetryOperator :=
  ⟨a.rotation.mul b.rotation, (a.rotation.mulVec b.translation).add a.translation⟩

/-- Modelled from the spec (4.1): operator equality is approximate and
compares rotation and translation component-wise. -/
def nearly_equalOp (a b : SymmetryOperator) : Bool :=
  nearly_equalM a.rotation b.rotation && nearly_equalV a.translation b.translation

/-- Modelled from the spec (glossary): a symmetry operator acts on a
fractional position as the affine map `rotation * v + translation`. -/
def symApply (op : SymmetryOperator) (v : Vector3D) : Vector3D :=
  (op.rotation.mulVec v).add op.translation

/-! ### `check_if_closed` and the `SpaceGroup` constructor -/

/-- `check_if_closed`: for every ordered pair of operators the composition
must be tolerance-equal to some operator of the list (the source throws on
the first failure; here the boolean feeds the constructor's error path). -/
def check_if_closed (ops : List SymmetryOperator) : Bool :=
  ops.all fun a => ops.all fun b => ops.any fun c => nearly_equalOp (symMul a b) c

def closedErrorMsg : String :=
  "check_if_closed( std::vector< SymmetryOperator > ): operator not found."

/-- The identity test of the constructor: rotation tolerance-equal to the
identity matrix and translation tolerance-equal to the zero vector. -/
def is_identity_operator (op : SymmetryOperator) : Bool :=
  nearly_equalM op.rotation identity3 && nearly_equalV op.translation zero3

/-- Walk the tail looking for the first near-identity operator and swap it
with the stored head, reproducing `std::swap(ops[0], ops[i])`. -/
def swapAuxIdentityFirst (o : SymmetryOperator) (acc rest : List SymmetryOperator) :
    List SymmetryOperator :=
  match rest with
  | [] => o :: acc.reverse
  | r :: rs =>
      if is_identity_operator r then r :: (acc.reverse ++ o :: rs)
      else swapAuxIdentityFirst o (r :: acc) rs

/-- The canonicalization step of `SpaceGroup::SpaceGroup`: if operator 0 is
not the identity, locate the first identity operator at index ≥ 1 and swap it
to position 0 (the list is left unchanged when none is found). -/
def move_identity_to_front (ops : List SymmetryOperator) : List SymmetryOperator :=
  match ops with
  | [] => []
  | o :: rest => if is_identity_operator o then o :: rest else swapAuxIdentityFirst o [] rest

/-! ### `SpaceGroup::decompose` -/

structure Decomposition where
  centring_vectors : List Vector3D
  has_inversion : Bool
  position_of_inversion : Vector3D
  has_inversion_at_origin : Bool
  representative_symmetry_operators : List SymmetryOperator
deriving DecidableEq, Repr

/-- First loop of `decompose`: classify each operator by rotation determinant
(+1 proper / -1 improper / anything else fatal), collecting the translations
of identity-rotation proper operators (centring candidates) and of
(-identity)-rotation improper operators (inversion translations, setting
`has_inversion`). -/
def classifyOperators :
    List SymmetryOperator → Except String (List Vector3D × Bool × List Vector3D)
  | [] => Except.ok ([], false, [])
  | op :: rest =>
      if nearly_equal op.rotation.determinant 1 then
        (classifyOperators rest).map fun r =>
          (if nearly_equalM op.rotation identity3 then op.translation :: r.1 else r.1,
            r.2.1, r.2.2)
      else if nearly_equal op.rotation.determinant (-1) then
        (classifyOperators rest).map fun r =>
          (r.1, nearly_equalM op.rotation identity3.neg || r.2.1,
            if nearly_equalM op.rotation identity3.neg then op.translation :: r.2.2
            else r.2.2)
      else Except.error ("SpaceGroup::decompose(): unexpected determinant.")

/-- Second loop of `decompose`: drop zero vectors from the centring
candidates, remembering whether the trivial (identity) centring was seen. -/
def removeZeroCentrings : List Vector3D → List Vector3D × Bool
  | [] => ([], false)
  | v :: rest =>
      let r := removeZeroCentrings rest
      if nearly_equalV v zero3 then (r.1, true) else (v :: r.1, r.2)

/-- Inversion-centre selection of `decompose`: smallest coordinate sum wins,
strict comparison so the first minimum is kept; the initial best value is 4.0
and the initial position is the default (zero) vector. -/
def select_position_of_inversion (l : List Vector3D) : ℚ × Vector3D :=
  l.foldl
    (fun best v => if v.x + v.y + v.z < best.1 then (v.x + v.y + v.z, v) else best)
    (4, zero3)

/-- Rotation comparison used for representatives: equal to a representative's
rotation or to its negation, within tolerance. -/
def rot_match_up_to_sign (a r : SymmetryOperator) : Bool :=
  nearly_equalM a.rotation r.rotation || nearly_equalM a.rotation r.rotation.neg

/-- One step of the representatives loop: keep the scanned operator unless
its rotation matches an already-kept representative up to sign. -/
def repsStep (acc : List SymmetryOperator) (op : SymmetryOperator) :
    List SymmetryOperator :=
  if acc.any fun r => rot_match_up_to_sign op r then acc else acc ++ [op]

/-- Final loop of `decompose`: scan the operators in order and keep those
whose rotation matches no already-kept representative up to sign. -/
def representative_symmetry_operators (ops : List SymmetryOperator) :
    List SymmetryOperator :=
  ops.foldl repsStep []

def identityNotFoundMsg : String := "SpaceGroup::decompose(): identity not found."

def decompose (ops : List SymmetryOperator) : Except String Decomposition := do
  let c ← classifyOperators ops
  let rz := removeZeroCentrings c.1
  if rz.2 then
    let sel := if c.2.1 then select_position_of_inversion c.2.2 else (4, zero3)
    pure ⟨rz.1, c.2.1, sel.2, c.2.1 && nearly_equal sel.1 0,
      representative_symmetry_operators ops⟩
  else
    Except.error identityNotFoundMsg

/-- A space group: the ordered operator list, its name, and the derived
decomposition (recomputed by every constructing or mutating operation). -/
structure SpaceGroup where
  symmetry_operators : List SymmetryOperator
  name : String
  decomposition : Decomposition
deriving DecidableEq, Repr

/-- `SpaceGroup::SpaceGroup(symmetry_operators, name)`: check closure (fatal
on failure), move the identity to index 0, then decompose (which can itself
raise).  The source reads `symmetry_operators_[0]` before the swap; on an
empty vector that is undefined behaviour in C++, and `decompose` then raises
"identity not found" — the embedding takes the error path for the empty
list. -/
def SpaceGroup.construct (ops : List SymmetryOperator) (nm : String) :
    Except String SpaceGroup :=
  if check_if_closed ops then
    let canon := move_identity_to_front ops
    (decompose canon).map fun dec => ⟨canon, nm, dec⟩
  else
    Except.error closedErrorMsg

/-- `SpaceGroup::remove_duplicate_symmetry_operators`, list level: the new
list starts with operator 0 (the identity) and every later operator is kept
unless tolerance-equal to an already-kept one.  (The source method then
re-runs `decompose`; the kept list is what the claim concerns.) -/
def dedupAux (acc : List SymmetryOperator) :
    List SymmetryOperator → List SymmetryOperator
  | [] => acc
  | r :: rs =>
      if acc.any fun s => nearly_equalOp r s then dedupAux acc rs
      else dedupAux (acc ++ [r]) rs

def remove_duplicate_symmetry_operators (ops : List SymmetryOperator) :
    List SymmetryOperator :=
  match ops with
  | [] => []
  | o :: rest => dedupAux [o] rest

/-- `SpaceGroup::add_inversion_at_origin`: no-op when an origin inversion is
already present; otherwise append after each operator its composition with
the origin inversion, then re-decompose.  (The warning print for an inversion
elsewhere is I/O and has no effect on the state.) -/
def add_inversion_at_origin (sg : SpaceGroup) : Except String SpaceGroup :=
  if sg.decomposition.has_inversion_at_origin then Except.ok sg
  else
    let inv : SymmetryOperator := ⟨identity3.neg, zero3⟩
    let ops := sg.symmetry_operators.foldr (fun o acc => o :: symMul inv o :: acc) []
    (decompose ops).map fun dec => ⟨ops, sg.name, dec⟩

/-! ### `SpaceGroup::crystal_system` -/

structure RotTally where
  s2 : ℕ
  s3 : ℕ
  s4 : ℕ
  s6 : ℕ
deriving DecidableEq, Repr

/-- One step of the tally loop: `switch(abs(rotation_part_type()))` counting
the 2-, 3-, 4- and 6-fold axes and ignoring every other value. -/
def tallyStep (rpt : SymmetryOperator → ℤ) (t : RotTally) (op : SymmetryOperator) :
    RotTally :=
  if (rpt op).natAbs = 2 then ⟨t.s2 + 1, t.s3, t.s4, t.s6⟩
  else if (rpt op).natAbs = 3 then ⟨t.s2, t.s3 + 1, t.s4, t.s6⟩
  else if (rpt op).natAbs = 4 then ⟨t.s2, t.s3, t.s4 + 1, t.s6⟩
  else if (rpt op).natAbs = 6 then ⟨t.s2, t.s3, t.s4, t.s6 + 1⟩
  else t

def crystalSystemErrorMsg : String :=
  "SpaceGroup::crystal_system(): we should never be here."

/-- `SpaceGroup::crystal_system` on the representative operator list.
`SymmetryOperator::rotation_part_type` lives in a file not under `src/`, so
it is passed here as a function argument (modelled from the spec, 4.3: it
returns the signed rotation order, of which only the magnitude is used);
the dispatch below is the source's. -/
def crystal_system (rpt : SymmetryOperator → ℤ) (reps : List SymmetryOperator) :
    Except String String :=
  if reps.length = 1 then Except.ok ("triclinic")
  else
    let t := reps.foldl (tallyStep rpt) ⟨0, 0, 0, 0⟩
    if t.s3 = 8 then Except.ok ("cubic")
    else if t.s6 = 2 then Except.ok ("hexagonal")
    else if t.s3 = 2 then Except.ok ("trigonal")
    else if t.s4 = 2 then Except.ok ("tetragonal")
    else if t.s2 = 3 then Except.ok ("orthorhombic")
    else if t.s2 = 1 then Except.ok ("monoclinic")
    else Except.error crystalSystemErrorMsg

/-! ### C1: construction checks closure, and accepted groups are closed -/

/-- Closure under composition up to tolerance, as the spec states it. -/
def ClosedUnderComposition (ops : List SymmetryOperator) : Prop :=
  ∀ a ∈ ops, ∀ b ∈ ops, ∃ c ∈ ops, nearly_equalOp (symMul a b) c = true

theorem check_if_closed_iff (ops : List SymmetryOperator) :
    check_if_closed ops = true ↔ ClosedUnderComposition ops := by
  unfold check_if_closed ClosedUnderComposition
  simp [List.all_eq_true, List.any_eq_true]

theorem except_map_ok {α β : Type} {f : α → β} {x : Except String α} {b : β}
    (h : x.map f = Except.ok b) : ∃ a, x = Except.ok a ∧ b = f a := by
  cases x with
  | error e => simp [Except.map] at h
  | ok a =>
      refine ⟨a, rfl, ?_⟩
      simp [Except.map] at h
      exact h.symm

theorem mem_swapAux (x o : SymmetryOperator) (rest : List SymmetryOperator) :
    ∀ acc, (x ∈ swapAuxIdentityFirst o acc rest ↔ x = o ∨ x ∈ acc ∨ x ∈ rest) := by
  induction rest with
  | nil =>
      intro acc
      simp [swapAuxIdentityFirst]
  | cons r rs ih =>
      intro acc
      unfold swapAuxIdentityFirst
      split
      · simp [List.mem_append]
        tauto
      · rw [ih (r :: acc)]
        simp
        tauto

theorem mem_move_identity_to_front (x : SymmetryOperator) (ops : List SymmetryOperator) :
    x ∈ move_identity_to_front ops ↔ x ∈ ops := by
  cases ops with
  | nil => simp [move_identity_to_front]
  | cons o rest =>
      have h : move_identity_to_front (o :: rest) =
          if is_identity_operator o = true then o :: rest else swapAuxIdentityFirst o [] rest :=
        rfl
      rw [h]
      split
      · exact Iff.rfl
      · rw [mem_swapAux x o rest []]
        simp

/-- C1: the `SpaceGroup` constructor taking an explicit operator list raises
an error whenever the list is not closed under tolerance-composition, and
conversely every operator list it accepts yields a group whose operator
sequence is closed: the composition of any two of its operators is
tolerance-equal to an operator of the sequence. -/
theorem C1_constructor_closure (ops : List SymmetryOperator) (nm : String) :
    (∀ sg, SpaceGroup.construct ops nm = Except.ok sg →
      ClosedUnderComposition sg.symmetry_operators) ∧
    (¬ ClosedUnderComposition ops →
      SpaceGroup.construct ops nm = Except.error closedErrorMsg) := by
  constructor
  · intro sg hok
    unfold SpaceGroup.construct at hok
    by_cases hc : check_if_closed ops = true
    · rw [if_pos hc] at hok
      obtain ⟨dec, _, hsg⟩ := except_map_ok hok
      have hclosed : ClosedUnderComposition ops := (check_if_closed_iff ops).mp hc
      subst hsg
      intro a ha b hb
      rw [mem_move_identity_to_front] at ha hb
      obtain ⟨c, hc1, hc2⟩ := hclosed a ha b hb
      exact ⟨c, (mem_move_identity_to_front c ops).mpr hc1, hc2⟩
    · rw [if_neg hc] at hok
      exact absurd hok (by simp)
  · intro hnc
    unfold SpaceGroup.construct
    rw [if_neg fun hc => hnc ((check_if_closed_iff ops).mp hc)]

theorem construct_P1_eval :
    SpaceGroup.construct [identityOp] ("P1") =
      Except.ok ⟨[identityOp], "P1", ⟨[], false, zero3, false, [identityOp]⟩⟩ := by
  norm_num [SpaceGroup.construct, check_if_closed, List.all_cons, List.all_nil, List.any_cons,
    List.any_nil, nearly_equalOp, nearly_equalM, nearly_equalV, nearly_equal, symMul,
    Matrix3D.mul, Matrix3D.mulVec, Vector3D.add, identityOp, identity3, zero3, tolQ,
    move_identity_to_front, is_identity_operator, decompose, classifyOperators,
    Matrix3D.determinant, removeZeroCentrings, representative_symmetry_operators, repsStep,
    List.foldl_cons, List.foldl_nil, Except.map, rot_match_up_to_sign, Matrix3D.neg,
    select_position_of_inversion, Except.pure, Except.bind, bind, pure, List.any_eq_true]

/-- Witness for C1 at the one-operator group P1. -/
theorem C1_constructor_closure_witness :
    ∃ sg, SpaceGroup.construct [identityOp] ("P1") = Except.ok sg ∧
      ClosedUnderComposition sg.symmetry_operators :=
  ⟨⟨[identityOp], "P1", ⟨[], false, zero3, false, [identityOp]⟩⟩, construct_P1_eval,
    (C1_constructor_closure [identityOp] ("P1")).1 _ construct_P1_eval⟩

/-! ### C5: the crystal-system dispatch -/

theorem tally_foldl_counts (rpt : SymmetryOperator → ℤ) (l : List SymmetryOperator) :
    ∀ t : RotTally,
      (l.foldl (tallyStep rpt) t).s2 = t.s2 + l.countP (fun o => (rpt o).natAbs = 2) ∧
      (l.foldl (tallyStep rpt) t).s3 = t.s3 + l.countP (fun o => (rpt o).natAbs = 3) ∧
      (l.foldl (tallyStep rpt) t).s4 = t.s4 + l.countP (fun o => (rpt o).natAbs = 4) ∧
      (l.foldl (tallyStep rpt) t).s6 = t.s6 + l.countP (fun o => (rpt o).natAbs = 6) := by
  induction l with
  | nil => intro t; simp
  | cons op rest ih =>
      intro t
      rw [List.foldl_cons]
      obtain ⟨h2, h3, h4, h6⟩ := ih (tallyStep rpt t op)
      rw [h2, h3, h4, h6]
      unfold tallyStep
      by_cases c2 : (rpt op).natAbs = 2
      · simp [List.countP_cons, c2]
        omega
      · by_cases c3 : (rpt op).natAbs = 3
        · simp [List.countP_cons, c2, c3]
          omega
        · by_cases c4 : (rpt op).natAbs = 4
          · simp [List.countP_cons, c2, c3, c4]
            omega
          · by_cases c6 : (rpt op).natAbs = 6
            · simp [List.countP_cons, c2, c3, c4, c6]
              omega
            · simp [List.countP_cons, c2, c3, c4, c6]

/-- C5: `crystal_system` returns "triclinic" exactly when there is one
representative operator; otherwise it tallies the representative rotations by
sign-independent rotation order and dispatches, in this priority order:
8 threefold → cubic, 2 sixfold → hexagonal, 2 threefold → trigonal,
2 fourfold → tetragonal, 3 twofold → orthorhombic, 1 twofold → monoclinic,
raising an error when no condition holds.  The rotation-order function `rpt`
is the (out-of-`src/`) `rotation_part_type`, universally quantified. -/
theorem C5_crystal_system_dispatch (rpt : SymmetryOperator → ℤ)
    (reps : List SymmetryOperator) :
    (crystal_system rpt reps = Except.ok ("triclinic") ↔ reps.length = 1) ∧
    (reps.length ≠ 1 →
      crystal_system rpt reps =
        (if reps.countP (fun o => (rpt o).natAbs = 3) = 8 then Except.ok ("cubic")
         else if reps.countP (fun o => (rpt o).natAbs = 6) = 2 then Except.ok ("hexagonal")
         else if reps.countP (fun o => (rpt o).natAbs = 3) = 2 then Except.ok ("trigonal")
         else if reps.countP (fun o => (rpt o).natAbs = 4) = 2 then Except.ok ("tetragonal")
         else if reps.countP (fun o => (rpt o).natAbs = 2) = 3 then Except.ok ("orthorhombic")
         else if reps.countP (fun o => (rpt o).natAbs = 2) = 1 then Except.ok ("monoclinic")
         else Except.error crystalSystemErrorMsg)) := by
  obtain ⟨h2, h3, h4, h6⟩ := tally_foldl_counts rpt reps ⟨0, 0, 0, 0⟩
  simp only [Nat.zero_add] at h2 h3 h4 h6
  constructor
  · constructor
    · intro hok
      by_contra hlen
      unfold crystal_system at hok
      rw [if_neg hlen] at hok
      simp only [h2, h3, h4, h6] at hok
      split_ifs at hok <;> simp_all
    · intro hlen
      unfold crystal_system
      rw [if_pos hlen]
  · intro hlen
    unfold crystal_system
    rw [if_neg hlen]
    simp only [h2, h3, h4, h6]

/-- Witness for C5: two representatives, one of them a twofold axis, classify
as monoclinic through the dispatch theorem. -/
theorem C5_crystal_system_witness :
    crystal_system (fun op => if op.rotation = identity3 then 1 else 2)
      [identityOp, ⟨identity3.neg, zero3⟩] = Except.ok ("monoclinic") := by
  have h :=
    (C5_crystal_system_dispatch (fun op => if op.rotation = identity3 then 1 else 2)
      [identityOp, ⟨identity3.neg, zero3⟩]).2 (by simp)
  rw [h]
  norm_num [List.countP_cons, List.countP_nil, identityOp, identity3, Matrix3D.neg,
    Matrix3D.mk.injEq]

/-! ### C6: operator 0 is the identity -/

theorem classify_centring_mem (ops : List SymmetryOperator) :
    ∀ c, classifyOperators ops = Except.ok c →
      ∀ v ∈ c.1, ∃ op ∈ ops, nearly_equalM op.rotation identity3 = true ∧
        op.translation = v := by
  induction ops with
  | nil =>
      intro c h v hv
      simp [classifyOperators] at h
      rw [← h] at hv
      simp at hv
  | cons op rest ih =>
      intro c h v hv
      unfold classifyOperators at h
      split_ifs at h with h1 h2 h3 h4
      · obtain ⟨r, hr, hc⟩ := except_map_ok h
        subst hc
        rcases List.mem_cons.mp hv with heq | hmem
        · exact ⟨op, List.mem_cons_self op rest, h2, heq.symm⟩
        · obtain ⟨w, hw, hw1, hw2⟩ := ih r hr v hmem
          exact ⟨w, List.mem_cons_of_mem op hw, hw1, hw2⟩
      · obtain ⟨r, hr, hc⟩ := except_map_ok h
        subst hc
        obtain ⟨w, hw, hw1, hw2⟩ := ih r hr v hv
        exact ⟨w, List.mem_cons_of_mem op hw, hw1, hw2⟩
      · obtain ⟨r, hr, hc⟩ := except_map_ok h
        subst hc
        obtain ⟨w, hw, hw1, hw2⟩ := ih r hr v hv
        exact ⟨w, List.mem_cons_of_mem op hw, hw1, hw2⟩
      · obtain ⟨r, hr, hc⟩ := except_map_ok h
        subst hc
        obtain ⟨w, hw, hw1, hw2⟩ := ih r hr v hv
        exact ⟨w, List.mem_cons_of_mem op hw, hw1, hw2⟩

theorem removeZero_found (l : List Vector3D) :
    (removeZeroCentrings l).2 = true → ∃ v ∈ l, nearly_equalV v zero3 = true := by
  induction l with
  | nil => intro h; simp [removeZeroCentrings] at h
  | cons v rest ih =>
      intro h
      unfold removeZeroCentrings at h
      by_cases hz : nearly_equalV v zero3 = true
      · exact ⟨v, List.mem_cons_self v rest, hz⟩
      · simp only [hz, if_false, Bool.false_eq_true, if_neg] at h
        obtain ⟨w, hw, hweq⟩ := ih h
        exact ⟨w, List.mem_cons_of_mem v hw, hweq⟩

theorem decompose_ok_identity (ops : List SymmetryOperator) (dec : Decomposition)
    (h : decompose ops = Except.ok dec) :
    ∃ op ∈ ops, is_identity_operator op = true := by
  unfold decompose at h
  cases hc : classifyOperators ops with
  | error e =>
      rw [hc] at h
      simp [Bind.bind, Except.bind] at h
  | ok c =>
      rw [hc] at h
      simp only [Bind.bind, Except.bind] at h
      by_cases hf : (removeZeroCentrings c.1).2 = true
      · obtain ⟨v, hv, hveq⟩ := removeZero_found c.1 hf
        obtain ⟨op, hop, hrot, htr⟩ := classify_centring_mem ops c hc v hv
        refine ⟨op, hop, ?_⟩
        unfold is_identity_operator
        rw [hrot, htr, hveq]
        rfl
      · rw [if_neg hf] at h
        simp at h

theorem swapAux_head_identity (rest : List SymmetryOperator) :
    ∀ (o : SymmetryOperator) (acc : List SymmetryOperator),
      (∃ r ∈ rest, is_identity_operator r = true) →
      is_identity_operator ((swapAuxIdentityFirst o acc rest).headD identityOp) = true := by
  induction rest with
  | nil =>
      intro o acc h
      simp at h
  | cons r rs ih =>
      intro o acc h
      unfold swapAuxIdentityFirst
      by_cases hr : is_identity_operator r = true
      · rw [if_pos hr]
        exact hr
      · rw [if_neg hr]
        apply ih o (r :: acc)
        obtain ⟨w, hw, hweq⟩ := h
        rcases List.mem_cons.mp hw with heq | hmem
        · exact absurd (heq ▸ hweq) hr
        · exact ⟨w, hmem, hweq⟩

theorem move_identity_head (ops : List SymmetryOperator)
    (h : ∃ op ∈ ops, is_identity_operator op = true) :
    is_identity_operator ((move_identity_to_front ops).headD identityOp) = true := by
  cases ops with
  | nil => simp at h
  | cons o rest =>
      have hdef : move_identity_to_front (o :: rest) =
          if is_identity_operator o = true then o :: rest else swapAuxIdentityFirst o [] rest :=
        rfl
      rw [hdef]
      by_cases ho : is_identity_operator o = true
      · rw [if_pos ho]
        exact ho
      · rw [if_neg ho]
        apply swapAux_head_identity rest o []
        obtain ⟨w, hw, hweq⟩ := h
        rcases List.mem_cons.mp hw with heq | hmem
        · exact absurd (heq ▸ hweq) ho
        · exact ⟨w, hmem, hweq⟩

theorem headD_append (l l' : List SymmetryOperator) (h : l ≠ []) :
    (l ++ l').headD identityOp = l.headD identityOp := by
  cases l with
  | nil => exact absurd rfl h
  | cons a rest => simp

theorem dedupAux_headD (rest : List SymmetryOperator) :
    ∀ acc : List SymmetryOperator, acc ≠ [] →
      (dedupAux acc rest).headD identityOp = acc.headD identityOp := by
  induction rest with
  | nil => intro acc hacc; rfl
  | cons r rs ih =>
      intro acc hacc
      unfold dedupAux
      split
      · exact ih acc hacc
      · rw [ih (acc ++ [r]) (by simp [hacc]), headD_append acc [r] hacc]

theorem remove_duplicates_headD (ops : List SymmetryOperator) :
    (remove_duplicate_symmetry_operators ops).headD identityOp = ops.headD identityOp := by
  cases ops with
  | nil => rfl
  | cons o rest =>
      show (dedupAux [o] rest).headD identityOp = _
      rw [dedupAux_headD rest [o] (by simp)]
      rfl

/-- C6: every operator list the constructor accepts yields a group whose
operator 0 is the identity within tolerance (the constructor swaps a
near-identity operator to the front, and `decompose` — which must succeed for
the construction to be accepted — guarantees one exists), and
`remove_duplicate_symmetry_operators` keeps index 0 unchanged, preserving the
identity there. -/
theorem C6_identity_at_index_zero :
    (∀ ops nm sg, SpaceGroup.construct ops nm = Except.ok sg →
      is_identity_operator (sg.symmetry_operators.headD identityOp) = true) ∧
    (∀ l : List SymmetryOperator,
      (remove_duplicate_symmetry_operators l).headD identityOp = l.headD identityOp) := by
  constructor
  · intro ops nm sg hok
    unfold SpaceGroup.construct at hok
    by_cases hc : check_if_closed ops = true
    · rw [if_pos hc] at hok
      obtain ⟨dec, hdec, hsg⟩ := except_map_ok hok
      subst hsg
      apply move_identity_head
      obtain ⟨op, hop, hid⟩ := decompose_ok_identity _ _ hdec
      exact ⟨op, (mem_move_identity_to_front op ops).mp hop, hid⟩
    · rw [if_neg hc] at hok
      exact absurd hok (by simp)
  · exact remove_duplicates_headD

/-- Witness for C6 at the accepted group P1. -/
theorem C6_identity_at_index_zero_witness :
    is_identity_operator
      ((⟨[identityOp], "P1", ⟨[], false, zero3, false, [identityOp]⟩⟩ :
        SpaceGroup).symmetry_operators.headD identityOp) = true ∧
    (remove_duplicate_symmetry_operators [identityOp]).headD identityOp =
      [identityOp].headD identityOp :=
  ⟨C6_identity_at_index_zero.1 [identityOp] ("P1") _ construct_P1_eval,
   C6_identity_at_index_zero.2 [identityOp]⟩

/-! ### C7: the representative list under tolerance -/

theorem nearly_equal_comm (x y : ℚ) : nearly_equal x y = nearly_equal y x := by
  unfold nearly_equal
  rw [abs_sub_comm]

theorem nearly_equal_neg_comm (x y : ℚ) : nearly_equal x (-y) = nearly_equal y (-x) := by
  unfold nearly_equal
  rw [show x - -y = y - -x by ring]

theorem nearly_equalM_comm (a b : Matrix3D) : nearly_equalM a b = nearly_equalM b a := by
  unfold nearly_equalM
  rw [nearly_equal_comm a.xx, nearly_equal_comm a.xy, nearly_equal_comm a.xz,
    nearly_equal_comm a.yx, nearly_equal_comm a.yy, nearly_equal_comm a.yz,
    nearly_equal_comm a.zx, nearly_equal_comm a.zy, nearly_equal_comm a.zz]

theorem nearly_equalM_neg_comm (a b : Matrix3D) :
    nearly_equalM a b.neg = nearly_equalM b a.neg := by
  unfold nearly_equalM Matrix3D.neg
  rw [nearly_equal_neg_comm a.xx, nearly_equal_neg_comm a.xy, nearly_equal_neg_comm a.xz,
    nearly_equal_neg_comm a.yx, nearly_equal_neg_comm a.yy, nearly_equal_neg_comm a.yz,
    nearly_equal_neg_comm a.zx, nearly_equal_neg_comm a.zy, nearly_equal_neg_comm a.zz]

theorem rot_match_refl (op : SymmetryOperator) : rot_match_up_to_sign op op = true := by
  have h : ∀ x : ℚ, nearly_equal x x = true := by
    intro x
    unfold nearly_equal tolQ
    rw [sub_self, abs_zero, if_pos (by norm_num)]
  unfold rot_match_up_to_sign nearly_equalM
  rw [h, h, h, h, h, h, h, h, h]
  rfl

theorem rot_match_symm (a b : SymmetryOperator) :
    rot_match_up_to_sign a b = rot_match_up_to_sign b a := by
  unfold rot_match_up_to_sign
  rw [nearly_equalM_comm a.rotation b.rotation, nearly_equalM_neg_comm a.rotation b.rotation]

theorem repsStep_pos {acc : List SymmetryOperator} {op : SymmetryOperator}
    (h : (acc.any fun r => rot_match_up_to_sign op r) = true) : repsStep acc op = acc := by
  unfold repsStep
  rw [if_pos h]

theorem repsStep_neg {acc : List SymmetryOperator} {op : SymmetryOperator}
    (h : ¬ (acc.any fun r => rot_match_up_to_sign op r) = true) :
    repsStep acc op = acc ++ [op] := by
  unfold repsStep
  rw [if_neg h]

theorem reps_foldl_split (l : List SymmetryOperator) :
    ∀ acc, ∃ t, l.foldl repsStep acc = acc ++ t ∧ t.Sublist l := by
  induction l with
  | nil => intro acc; exact ⟨[], by simp, List.nil_sublist []⟩
  | cons op rest ih =>
      intro acc
      rw [List.foldl_cons]
      by_cases h : (acc.any fun r => rot_match_up_to_sign op r) = true
      · rw [repsStep_pos h]
        obtain ⟨t, ht, hs⟩ := ih acc
        exact ⟨t, ht, hs.cons op⟩
      · rw [repsStep_neg h]
        obtain ⟨t, ht, hs⟩ := ih (acc ++ [op])
        refine ⟨op :: t, ?_, hs.cons₂ op⟩
        rw [ht, List.append_assoc]
        rfl

theorem reps_foldl_covers (l : List SymmetryOperator) :
    ∀ acc, ∀ op ∈ l, ∃ r ∈ l.foldl repsStep acc, rot_match_up_to_sign op r = true := by
  induction l with
  | nil => intro acc op hop; simp at hop
  | cons o rest ih =>
      intro acc op hop
      rw [List.foldl_cons]
      rcases List.mem_cons.mp hop with heq | hmem
      · subst heq
        obtain ⟨t, ht, _⟩ := reps_foldl_split rest (repsStep acc op)
        by_cases hany : (acc.any fun r => rot_match_up_to_sign op r) = true
        · obtain ⟨r, hr, hrm⟩ := List.any_eq_true.mp hany
          refine ⟨r, ?_, hrm⟩
          rw [ht]
          apply List.mem_append_left
          rw [repsStep_pos hany]
          exact hr
        · refine ⟨op, ?_, rot_match_refl op⟩
          rw [ht]
          apply List.mem_append_left
          rw [repsStep_neg hany]
          exact List.mem_append_right acc (List.mem_singleton.mpr rfl)
      · exact ih (repsStep acc o) op hmem

theorem reps_foldl_pairwise (l : List SymmetryOperator) :
    ∀ acc, acc.Pairwise (fun r s => rot_match_up_to_sign r s = false) →
      (l.foldl repsStep acc).Pairwise (fun r s => rot_match_up_to_sign r s = false) := by
  induction l with
  | nil => intro acc h; exact h
  | cons op rest ih =>
      intro acc hacc
      rw [List.foldl_cons]
      apply ih
      by_cases hany : (acc.any fun r => rot_match_up_to_sign op r) = true
      · rw [repsStep_pos hany]
        exact hacc
      · rw [repsStep_neg hany]
        rw [List.pairwise_append]
        refine ⟨hacc, List.pairwise_singleton _ _, ?_⟩
        intro r hr s hs
        rw [List.mem_singleton.mp hs]
        have hno : ∀ r' ∈ acc, ¬ rot_match_up_to_sign op r' = true := by
          intro r' hr' hm
          exact hany (List.any_eq_true.mpr ⟨r', hr', hm⟩)
        have hfalse := hno r hr
        rw [rot_match_symm r op]
        exact Bool.eq_false_iff.mpr fun hh => hfalse hh

/-- C7 amended: after `decompose`, every operator's rotation matches, up to
sign and within tolerance, the rotation of at least one representative;
the representatives are pairwise non-matching up to sign; and the
representative list is a subsequence of the operator list (first occurrences,
in scan order).  Because tolerance equality is not transitive, an operator
can match more than one representative, and a representative need not be the
earliest operator of its tolerance class — which is what the original claim
overstated. -/
theorem C7_representatives_amended (ops : List SymmetryOperator) :
    (∀ op ∈ ops, ∃ r ∈ representative_symmetry_operators ops,
      rot_match_up_to_sign op r = true) ∧
    (representative_symmetry_operators ops).Pairwise
      (fun r s => rot_match_up_to_sign r s = false) ∧
    (representative_symmetry_operators ops).Sublist ops := by
  refine ⟨reps_foldl_covers ops [], reps_foldl_pairwise ops [] (List.Pairwise.nil), ?_⟩
  obtain ⟨t, ht, hs⟩ := reps_foldl_split ops []
  unfold representative_symmetry_operators
  rw [ht]
  simpa using hs

/-- Perturbed rotations inside and at 1.5x the tolerance: det is exactly 1
because the perturbation is off-diagonal. -/
def opB : SymmetryOperator := ⟨⟨1, 3/400000, 0, 0, 1, 0, 0, 0, 1⟩, zero3⟩

def opC : SymmetryOperator := ⟨⟨1, 3/200000, 0, 0, 1, 0, 0, 0, 1⟩, zero3⟩

/-- A list `decompose` accepts: determinants are exactly 1 and the identity
operator is present.  `opB` is within tolerance of both the identity and
`opC`, while `opC` is not within tolerance of the identity. -/
def C7ops : List SymmetryOperator := [identityOp, opB, opC]

/-- The original claim C7, formalized: every operator matches exactly one
representative up to sign, and every representative is the earliest operator
in the list whose rotation matches it up to sign. -/
def ClaimC7 (ops : List SymmetryOperator) : Prop :=
  (∀ op ∈ ops,
    (representative_symmetry_operators ops).countP
      (fun r => rot_match_up_to_sign op r) = 1) ∧
  (∀ r ∈ representative_symmetry_operators ops,
    ops.find? (fun o => rot_match_up_to_sign o r) = some r)

theorem reps_C7_eval : representative_symmetry_operators C7ops = [identityOp, opC] := by
  norm_num [representative_symmetry_operators, C7ops, List.foldl_cons, List.foldl_nil,
    repsStep, List.any_cons, List.any_nil, rot_match_up_to_sign, nearly_equalM, nearly_equal,
    identityOp, opB, opC, identity3, Matrix3D.neg, tolQ, zero3, abs_le, abs_lt]

theorem classify_C7_eval :
    classifyOperators C7ops = Except.ok ([zero3, zero3], false, []) := by
  norm_num [classifyOperators, C7ops, Matrix3D.determinant, nearly_equal, nearly_equalM,
    identityOp, opB, opC, identity3, Matrix3D.neg, tolQ, zero3, Except.map, abs_lt]

theorem decompose_C7_eval :
    decompose C7ops = Except.ok ⟨[], false, zero3, false, [identityOp, opC]⟩ := by
  unfold decompose
  rw [classify_C7_eval, reps_C7_eval]
  norm_num [Bind.bind, Except.bind, removeZeroCentrings, nearly_equalV, nearly_equal, zero3,
    tolQ, pure, Except.pure, abs_lt]

/-- C7 counterexample: `decompose` accepts `C7ops`, whose representative list
is `[identityOp, opC]`; the operator `opB` matches both representatives up to
sign (so "exactly one" fails), and the earliest operator of the list matching
`opC` up to sign is `opB`, not `opC` itself (so "earliest occurrence" fails). -/
theorem C7_counterexample :
    decompose C7ops = Except.ok ⟨[], false, zero3, false, [identityOp, opC]⟩ ∧
    ¬ ClaimC7 C7ops := by
  refine ⟨decompose_C7_eval, fun hcl => ?_⟩
  have h1 := hcl.1 opB (by simp [C7ops])
  rw [reps_C7_eval] at h1
  norm_num [List.countP_cons, List.countP_nil, rot_match_up_to_sign, nearly_equalM,
    nearly_equal, identityOp, opB, opC, identity3, Matrix3D.neg, tolQ, abs_lt] at h1

/-- Witness for the amended C7 at the concrete three-operator list used by
the counterexample. -/
theorem C7_representatives_witness :
    ∃ r ∈ representative_symmetry_operators C7ops,
      rot_match_up_to_sign opB r = true :=
  (C7_representatives_amended C7ops).1 opB (by simp [C7ops])

/-! ### Crystal structures and the structure matcher

The structure container holds the atom list, a lattice and a space group.  A
lattice here carries its six cell parameters and the fractional-to-orthogonal
matrix derived from them by the numeric constructor; that derivation uses
trigonometric functions, so wherever matcher code has to build a new lattice
from averaged parameters the constructor is modelled by an explicit function
argument `orth` over which the theorems quantify. -/

structure Atom where
  element : String
  position : Vector3D
  label : String
deriving DecidableEq, Repr

/-- `Element::is_H_or_D`: elements are modelled by their symbol strings. -/
def Atom.is_H_or_D (a : Atom) : Bool := a.element == "H" || a.element == "D"

structure CrystalLattice where
  a : ℚ
  b : ℚ
  c : ℚ
  alpha : ℚ
  beta : ℚ
  gamma : ℚ
  M : Matrix3D
deriving DecidableEq, Repr

def CrystalLattice.fractional_to_orthogonal (lat : CrystalLattice) (v : Vector3D) : Vector3D :=
  lat.M.mulVec v

structure CrystalStructure where
  atoms : List Atom
  crystal_lattice : CrystalLattice
  space_group : SpaceGroup
  name : String
deriving DecidableEq, Repr

def CrystalStructure.natoms (cs : CrystalStructure) : ℕ := cs.atoms.length

def atomIndexErrorMsg : String := "CrystalStructure::atom( size_t ): i >= atoms_.size()"

/-- `CrystalStructure::atom(size_t)`: out-of-range indices raise, in-range
indices return the stored atom. -/
def CrystalStructure.atom (cs : CrystalStructure) (i : ℕ) : Except String Atom :=
  if h : cs.atoms.length ≤ i then Except.error atomIndexErrorMsg
  else Except.ok (cs.atoms.get ⟨i, by omega⟩)

/-- `CrystalStructure::centre_of_mass`: fatal on an empty atom list; the
source's `ignore_hydrogens` and `weigh_by_atomic_weight` flags are both
false, so this is the plain average of the fractional positions. -/
def centre_of_mass (cs : CrystalStructure) : Except String Vector3D :=
  if cs.atoms.isEmpty then
    Except.error ("CrystalStructure::centre_of_mass(): there are no atoms, centre of mass is undefined.")
  else
    let s := cs.atoms.foldl (fun acc at0 => acc.add at0.position) zero3
    Except.ok ⟨s.x / (cs.natoms : ℚ), s.y / (cs.natoms : ℚ), s.z / (cs.natoms : ℚ)⟩

/-- The averaged lattice matrix used by `RMSCD_with_matching` and
`find_match`: the six cell parameters are averaged pairwise and handed to the
(modelled) numeric constructor `orth`. -/
def average_lattice (orth : ℚ → ℚ → ℚ → ℚ → ℚ → ℚ → Matrix3D) (l r : CrystalLattice) :
    Matrix3D :=
  orth ((l.a + r.a) / 2) ((l.b + r.b) / 2) ((l.c + r.c) / 2)
    ((l.alpha + r.alpha) / 2) ((l.beta + r.beta) / 2) ((l.gamma + r.gamma) / 2)

/-- Squared displacement surrogate: the source computes the average of the two
Cartesian displacement lengths and squares it; lengths are irrational over ℚ,
so the accumulated quantity here is the average of the two squared norms.  No
claim depends on this numeric value, only on the surrounding control flow. -/
def dispSq (M1 M2 : Matrix3D) (p q : Vector3D) : ℚ :=
  ((M1.mulVec (p.sub q)).norm2 + (M2.mulVec (p.sub q)).norm2) / 2

def rmscdCountErrorMsg : String :=
  "root_mean_square_Cartesian_displacement(): number of atoms is not the same."

def rmscdElementsErrorMsg : String :=
  "root_mean_square_Cartesian_displacement(): elements are not the same."

def rmscd_fold (M1 M2 : Matrix3D) : List (Atom × Atom) → Except String (ℚ × ℚ)
  | [] => Except.ok (0, 0)
  | (al, ar) :: rest =>
      if al.is_H_or_D && ar.is_H_or_D then rmscd_fold M1 M2 rest
      else if al.element ≠ ar.element then Except.error rmscdElementsErrorMsg
      else (rmscd_fold M1 M2 rest).map fun acc =>
        (acc.1 + dispSq M1 M2 al.position ar.position, acc.2 + 1)

/-- `root_mean_square_Cartesian_displacement`: fatal when the atom counts
differ; pairs where both atoms are hydrogen or deuterium are skipped; a pair
of different elements is fatal; each remaining pair contributes occupancy 1
and its squared displacement; 0 is returned when no pair contributed (the
`nearly_equal(nnon_H_atoms, 0.0)` test of the source).  The final square root
of the source is omitted (see `dispSq`). -/
def root_mean_square_Cartesian_displacement (lhs rhs : CrystalStructure) :
    Except String ℚ :=
  if lhs.natoms ≠ rhs.natoms then Except.error rmscdCountErrorMsg
  else
    (rmscd_fold lhs.crystal_lattice.M rhs.crystal_lattice.M (lhs.atoms.zip rhs.atoms)).map
      fun acc => if nearly_equal acc.2 0 then 0 else acc.1 / acc.2

/-- Squared sentinel for the source's initial `smallest_distance = 10000.0`
(distances are compared through their squares). -/
def sentinel2 : ℚ := 100000000

structure MatchState where
  smallest : ℚ
  best_match : Vector3D
  best_k : ℕ
  best_m : ℕ
  matching_index : ℕ
deriving DecidableEq, Repr

/-- The innermost candidate search shared by `RMSCD_with_matching` and
`find_match`: for the reference position `p` of element `elem`, scan the
candidate atoms (with their indices), all symmetry operators and all shifts
in source order, adopting any strictly smaller periodic squared distance.
The candidate position is `op * (atom.position + shift)` and the recorded
best match is `p + difference_vector`. -/
def scanAtom (avgM : Matrix3D) (ops : List SymmetryOperator) (shifts : List Vector3D)
    (p : Vector3D) (elem : String) (cands : List (ℕ × Atom)) (init : MatchState) :
    MatchState :=
  cands.foldl
    (fun stj jaj =>
      if jaj.2.element ≠ elem then stj
      else
        ops.enum.foldl
          (fun stk kop =>
            shifts.enum.foldl
              (fun stm msh =>
                let current := symApply kop.2 (jaj.2.position.add msh.2)
                let r := shortest_distance_vec avgM p current
                if r.1 < stm.smallest then ⟨r.1, p.add r.2, kop.1, msh.1, jaj.1⟩ else stm)
              stk)
          stj)
    init

/-- The eight half-cell shifts of `RMSCD_with_matching` when `add_shifts`
is set, in source order (the zero shift always comes first). -/
def eightShifts : List Vector3D :=
  [⟨0, 0, 0⟩, ⟨1/2, 0, 0⟩, ⟨1/2, 1/2, 0⟩, ⟨1/2, 0, 1/2⟩,
   ⟨0, 1/2, 0⟩, ⟨0, 1/2, 1/2⟩, ⟨0, 0, 1/2⟩, ⟨1/2, 1/2, 1/2⟩]

def twoMatchesErrorMsg : String := "RMSCD_with_matching(): an atom has two matches."

def matchingCountErrorMsg : String :=
  "RMSCD_with_matching(): numbers of atoms are not the same."

/-- The matching loop of `RMSCD_with_matching`: for each reference atom find
its best match, raise when a non-hydrogen reference hits an already-matched
candidate (`done[matching_index]`), and collect the matched positions.  When
no candidate qualifies the source leaves `matching_index = natoms + 1` and
indexes `done` out of bounds (undefined behaviour); the embedding reads the
flag as false and the marking as a no-op there. -/
def RMSCD_match_loop (avgM : Matrix3D) (ops : List SymmetryOperator)
    (shifts : List Vector3D) (cands : List (ℕ × Atom)) (natoms : ℕ) :
    List Atom → List Bool → Except String (List Vector3D)
  | [], _ => Except.ok []
  | ai :: rest, done =>
      let st := scanAtom avgM ops shifts ai.position ai.element cands
        ⟨sentinel2, zero3, 0, 0, natoms + 1⟩
      if done.getD st.matching_index false && !ai.is_H_or_D then
        Except.error twoMatchesErrorMsg
      else
        (RMSCD_match_loop avgM ops shifts cands natoms rest
            (done.set st.matching_index true)).map
          fun bs => st.best_match :: bs

/-- The final displacement statistic of `RMSCD_with_matching`: hydrogen and
deuterium reference atoms are excluded; 0 when nothing contributed; the final
square root of the source is omitted (see `dispSq`). -/
def RMSCD_final (M1 M2 : Matrix3D) : List (Atom × Vector3D) → ℚ × ℕ
  | [] => (0, 0)
  | (ai, best) :: rest =>
      let acc := RMSCD_final M1 M2 rest
      if ai.is_H_or_D then acc
      else (acc.1 + dispSq M1 M2 ai.position best, acc.2 + 1)

/-- `RMSCD_with_matching`: fatal when the atom counts differ; 0 for empty
structures; otherwise match every reference atom against all (candidate ×
operator × shift) combinations under the averaged lattice and compute the
displacement statistic over the matches.  The lattice-difference warnings and
the cif snapshot of the source are I/O without effect on the result and are
not modelled. -/
def RMSCD_with_matching (orth : ℚ → ℚ → ℚ → ℚ → ℚ → ℚ → Matrix3D)
    (lhs rhs : CrystalStructure) (add_shifts : Bool) : Except String ℚ :=
  if rhs.natoms ≠ lhs.natoms then Except.error matchingCountErrorMsg
  else if rhs.natoms = 0 then Except.ok 0
  else
    let avgM := average_lattice orth lhs.crystal_lattice rhs.crystal_lattice
    let shifts := if add_shifts then eightShifts else [⟨0, 0, 0⟩]
    (RMSCD_match_loop avgM rhs.space_group.symmetry_operators shifts rhs.atoms.enum
        rhs.natoms lhs.atoms (List.replicate rhs.natoms false)).map
      fun best =>
        let fin := RMSCD_final lhs.crystal_lattice.M rhs.crystal_lattice.M
          (lhs.atoms.zip best)
        if fin.2 = 0 then 0 else fin.1 / fin.2

/-! ### `find_match` -/

/-- `same_symmetry_operators`: set equality of the operator lists up to
tolerance (the source compares sizes, then looks each operator up in the
other list).  In `find_match` its result only feeds a warning print. -/
def same_symmetry_operators (lhs rhs : SpaceGroup) : Bool :=
  lhs.symmetry_operators.length == rhs.symmetry_operators.length &&
    lhs.symmetry_operators.all fun a =>
      rhs.symmetry_operators.any fun b => nearly_equalOp a b

/-- The floating-axes correction of `find_match`: per diagonal entry of the
summed rotation matrices, a nonzero sum marks a floating axis and the
centre-of-mass difference is stored there. -/
def floating_axes_correction (sg : SpaceGroup) (com_lhs com_rhs : Vector3D) : Vector3D :=
  let sum := sg.symmetry_operators.foldl
    (fun acc op => Matrix3D.add acc op.rotation) (⟨0, 0, 0, 0, 0, 0, 0, 0, 0⟩ : Matrix3D)
  ⟨if nearly_equal sum.xx 0 then 0 else com_lhs.x - com_rhs.x,
   if nearly_equal sum.yy 0 then 0 else com_lhs.y - com_rhs.y,
   if nearly_equal sum.zz 0 then 0 else com_lhs.z - com_rhs.z⟩

/-- The shift grid of `find_match`: `shift_steps` 0 or 1 gives the bare
floating-axes correction; otherwise all combinations i/steps along the three
axes added to the correction, i1 outer. -/
def shift_grid (shift_steps : ℕ) (corr : Vector3D) : List Vector3D :=
  if shift_steps = 0 ∨ shift_steps = 1 then [corr]
  else
    (List.range shift_steps).flatMap fun i1 =>
      (List.range shift_steps).flatMap fun i2 =>
        (List.range shift_steps).map fun i3 =>
          corr.add ⟨(i1 : ℚ) / (shift_steps : ℚ), (i2 : ℚ) / (shift_steps : ℚ),
            (i3 : ℚ) / (shift_steps : ℚ)⟩

def bump (l : List ℕ) (i : ℕ) : List ℕ := l.set i (l.getD i 0 + 1)

/-- The voting loop of `find_match`: hydrogen and deuterium reference atoms
are skipped; each remaining atom votes for the (operator, shift) pair of its
best match.  The `done` bookkeeping of the source only feeds a diagnostic
print there (the duplicate-match throw is commented out) and is omitted. -/
def vote_loop (avgM : Matrix3D) (ops : List SymmetryOperator) (shifts : List Vector3D)
    (cands : List (ℕ × Atom)) (natoms : ℕ) :
    List Atom → List ℕ × List ℕ → List ℕ × List ℕ
  | [], fr => fr
  | ai :: rest, fr =>
      if ai.is_H_or_D then vote_loop avgM ops shifts cands natoms rest fr
      else
        let st := scanAtom avgM ops shifts ai.position ai.element cands
          ⟨sentinel2, zero3, 0, 0, natoms + 1⟩
        vote_loop avgM ops shifts cands natoms rest (bump fr.1 st.best_k, bump fr.2 st.best_m)

/-- First index holding the maximal frequency, the source's strict-greater
scan starting from `best_index = size`, `best_frequency = 0`. -/
def first_max_index (freqs : List ℕ) : ℕ :=
  (freqs.foldl
    (fun st f => if f > st.2.2 then (st.1 + 1, st.1, f) else (st.1 + 1, st.2.1, st.2.2))
    (0, freqs.length, 0)).2.1

def findMatchCountErrorMsg : String := "find_match(): numbers of atoms are not the same."

/-- Main branch of `find_match` (reached only with a positive atom count):
optional floating-axes correction from the two centres of mass, optional
origin-inversion augmentation of the space group, the shift grid, the voting
loop, the winning (operator, shift) pair assembled into the result operator
`(R, R*shift + t)`, and the integer shifts rounded from the centre-of-mass
mismatch (`round_to_int` of Utilities, a file not under `src/`, is modelled
as rounding to the nearest integer).  Warning prints (lattice differences,
differing space groups, frequency diagnostics) are I/O without effect and
are not modelled. -/
def find_match_main (orth : ℚ → ℚ → ℚ → ℚ → ℚ → ℚ → Matrix3D)
    (lhs rhs : CrystalStructure) (shift_steps : ℕ)
    (add_inversion correct_floating_axes : Bool) :
    Except String (SymmetryOperator × List ℤ) := do
  let avgM := average_lattice orth lhs.crystal_lattice rhs.crystal_lattice
  let corr ←
    if correct_floating_axes then do
      let cl ← centre_of_mass lhs
      let cr ← centre_of_mass rhs
      pure (floating_axes_correction rhs.space_group cl cr)
    else pure zero3
  let sg ←
    if add_inversion && !rhs.space_group.decomposition.has_inversion_at_origin then
      add_inversion_at_origin rhs.space_group
    else pure rhs.space_group
  let shifts := shift_grid shift_steps corr
  let fr := vote_loop avgM sg.symmetry_operators shifts rhs.atoms.enum rhs.natoms
    lhs.atoms (List.replicate sg.symmetry_operators.length 0, List.replicate shifts.length 0)
  let ki := first_max_index fr.1
  let mi := first_max_index fr.2
  let bop := sg.symmetry_operators.getD ki identityOp
  let bsh := shifts.getD mi zero3
  let result : SymmetryOperator :=
    ⟨bop.rotation, (bop.rotation.mulVec bsh).add bop.translation⟩
  let cl ← centre_of_mass lhs
  let cr ← centre_of_mass rhs
  let isv := cl.sub (symApply result cr)
  pure (result, [qround isv.x, qround isv.y, qround isv.z])

/-- `find_match`: fatal when the atom counts differ; with zero atoms it
returns the default `SymmetryOperator()` (identity rotation, zero
translation) before touching the caller's `integer_shifts`, which is
therefore returned unchanged; otherwise the main search runs and produces
fresh integer shifts (the source clears and refills the by-reference vector
only in that branch).  The averaged lattice and the parameter-difference
warnings computed before the zero-atom return have no observable effect. -/
def find_match (orth : ℚ → ℚ → ℚ → ℚ → ℚ → ℚ → Matrix3D) (lhs rhs : CrystalStructure)
    (shift_steps : ℕ) (integer_shifts : List ℤ)
    (add_inversion correct_floating_axes : Bool) :
    Except String (SymmetryOperator × List ℤ) :=
  if rhs.natoms ≠ lhs.natoms then Except.error findMatchCountErrorMsg
  else if rhs.natoms = 0 then Except.ok (identityOp, integer_shifts)
  else find_match_main orth lhs rhs shift_steps add_inversion correct_floating_axes

/-! ### C8, C9, C10 -/

/-- C8: each structure-to-structure comparison (displacement, matching
displacement, match finding) raises its atom-count error, before any other
computation, whenever the two structures have different atom counts. -/
theorem C8_atom_count_mismatch (orth : ℚ → ℚ → ℚ → ℚ → ℚ → ℚ → Matrix3D)
    (lhs rhs : CrystalStructure) (add_shifts : Bool) (shift_steps : ℕ)
    (integer_shifts : List ℤ) (add_inversion correct_floating_axes : Bool)
    (h : lhs.natoms ≠ rhs.natoms) :
    root_mean_square_Cartesian_displacement lhs rhs = Except.error rmscdCountErrorMsg ∧
    RMSCD_with_matching orth lhs rhs add_shifts = Except.error matchingCountErrorMsg ∧
    find_match orth lhs rhs shift_steps integer_shifts add_inversion correct_floating_axes =
      Except.error findMatchCountErrorMsg := by
  refine ⟨?_, ?_, ?_⟩
  · unfold root_mean_square_Cartesian_displacement
    rw [if_pos h]
  · unfold RMSCD_with_matching
    rw [if_pos (Ne.symm h)]
  · unfold find_match
    rw [if_pos (Ne.symm h)]

def latticeP1 : CrystalLattice := ⟨10, 10, 10, 90, 90, 90, ⟨10, 0, 0, 0, 10, 0, 0, 0, 10⟩⟩

def sgP1 : SpaceGroup := ⟨[identityOp], "P1", ⟨[], false, zero3, false, [identityOp]⟩⟩

def atomC : Atom := ⟨"C", ⟨1/4, 0, 0⟩, "C1"⟩

def csOneAtom : CrystalStructure := ⟨[atomC], latticeP1, sgP1, "one"⟩

def csEmpty : CrystalStructure := ⟨[], latticeP1, sgP1, "empty"⟩

def orthCubic10 : ℚ → ℚ → ℚ → ℚ → ℚ → ℚ → Matrix3D :=
  fun _ _ _ _ _ _ => ⟨10, 0, 0, 0, 10, 0, 0, 0, 10⟩

/-- Witness for C8: a one-atom structure against an empty one. -/
theorem C8_atom_count_mismatch_witness :
    root_mean_square_Cartesian_displacement csOneAtom csEmpty =
      Except.error rmscdCountErrorMsg ∧
    RMSCD_with_matching orthCubic10 csOneAtom csEmpty true =
      Except.error matchingCountErrorMsg ∧
    find_match orthCubic10 csOneAtom csEmpty 2 [0, 0, 0] false false =
      Except.error findMatchCountErrorMsg :=
  C8_atom_count_mismatch orthCubic10 csOneAtom csEmpty true 2 [0, 0, 0] false false
    (by simp [csOneAtom, csEmpty, CrystalStructure.natoms])

/-- C9: the atom accessor is total at the interface — every index at least
the atom count raises, every smaller index returns the stored atom. -/
theorem C9_atom_accessor_total (cs : CrystalStructure) (i : ℕ) :
    (cs.natoms ≤ i → CrystalStructure.atom cs i = Except.error atomIndexErrorMsg) ∧
    (∀ h : i < cs.natoms, CrystalStructure.atom cs i = Except.ok (cs.atoms.get ⟨i, h⟩)) := by
  constructor
  · intro h
    have h' : cs.atoms.length ≤ i := h
    unfold CrystalStructure.atom
    rw [dif_pos h']
  · intro h
    have h' : ¬ cs.atoms.length ≤ i := by
      unfold CrystalStructure.natoms at h
      omega
    unfold CrystalStructure.atom
    rw [dif_neg h']

/-- Witness for C9 on the concrete one-atom structure, at an in-range and an
out-of-range index. -/
theorem C9_atom_accessor_total_witness :
    CrystalStructure.atom csOneAtom 0 = Except.ok atomC ∧
    CrystalStructure.atom csOneAtom 1 = Except.error atomIndexErrorMsg := by
  constructor
  · have h := (C9_atom_accessor_total csOneAtom 0).2 (by simp [csOneAtom, CrystalStructure.natoms])
    rw [h]
    rfl
  · exact (C9_atom_accessor_total csOneAtom 1).1 (by simp [csOneAtom, CrystalStructure.natoms])

/-- C10: with two empty structures, `find_match` succeeds with the default
symmetry operator (identity rotation, zero translation) and hands back the
caller-supplied `integer_shifts` unmodified. -/
theorem C10_find_match_empty (orth : ℚ → ℚ → ℚ → ℚ → ℚ → ℚ → Matrix3D)
    (lhs rhs : CrystalStructure) (shift_steps : ℕ) (integer_shifts : List ℤ)
    (add_inversion correct_floating_axes : Bool)
    (h1 : lhs.atoms = []) (h2 : rhs.atoms = []) :
    find_match orth lhs rhs shift_steps integer_shifts add_inversion correct_floating_axes =
      Except.ok (identityOp, integer_shifts) := by
  unfold find_match
  have hl : lhs.natoms = 0 := by unfold CrystalStructure.natoms; rw [h1]; rfl
  have hr : rhs.natoms = 0 := by unfold CrystalStructure.natoms; rw [h2]; rfl
  rw [if_neg (by omega), if_pos hr]

/-- Witness for C10 on concrete empty structures and a concrete nonempty
`integer_shifts`. -/
theorem C10_find_match_empty_witness :
    find_match orthCubic10 csEmpty csEmpty 2 [7, -3, 5] true true =
      Except.ok (identityOp, [7, -3, 5]) :=
  C10_find_match_empty orthCubic10 csEmpty csEmpty 2 [7, -3, 5] true true rfl rfl
